import Mathlib

/-!
Verification of the monad-std lazy iterator engine.

The Python iterator protocol of `monad_std.iter` is embedded shallowly:
a Python `IterMeta` object is a step function on an explicit state,
`next st = (produced element or none, state after the call)`, and every
adapter of `src/monad_std/iter/impl` becomes a state transformer.  The
`monad_std.Option` vocabulary is embedded as Lean `Option` (`OpSome` =
`some`, `OpNone` = `none`); Python exceptions that the claims mention
(`AttributeError` from reading a deleted or never-assigned instance
attribute, `AssertionError` from a failing `assert`) are tracked with an
explicit error channel.
-/

namespace MonadStd

universe u v

/-- Python exceptions tracked by the embedding: `attributeError` models
reading a deleted or never-assigned instance attribute, `assertionError`
models a failing `assert` statement. -/
inductive PyErr where
  | attributeError
  | assertionError
deriving DecidableEq, Repr

/-- A Python-level return value: either a normal value or a raised
exception that propagates to the caller. -/
inductive PyRes (α : Type u) where
  | ok (v : α)
  | exn (e : PyErr)
deriving DecidableEq, Repr

/-- Embedding of `monad_std.result.Result` (`src/monad_std/result.py`):
either `Ok` with a value or `Err` with an error payload. -/
inductive Result (α : Type u) (ε : Type v) where
  | ok (v : α)
  | err (e : ε)
deriving DecidableEq, Repr

/-- Embedding of `monad_std.either.Either` (`src/monad_std/either.py`):
a disjoint union of a `Left` and a `Right` value. -/
inductive Either (L : Type u) (R : Type v) where
  | left (v : L)
  | right (v : R)
deriving DecidableEq, Repr

/-- `Option.zip` from `src/monad_std/option.py`: `OpSome.zip` returns the
pair when the other side is also present and `OpNone` otherwise;
`OpNone.zip` returns `OpNone`. -/
def optZip {α : Type u} {β : Type v} : Option α → Option β → Option (α × β)
  | some a, some b => some (a, b)
  | some _, none => none
  | none, _ => none

/-- A Python iterator (`IterMeta`, `src/monad_std/iter/iter.py`) as a step
function on an explicit state: mutation of `self` inside `next` becomes
the returned state component. -/
abbrev NextFn (σ α : Type u) : Type u := σ → Option α × σ

/-- The list-backed source iterator (`IterMeta.iter` over a sequence,
`src/monad_std/iter/impl/default_iter.py`): `next` pulls the underlying
cursor and reports `OpNone` on exhaustion. -/
def listNext {α : Type u} : NextFn (List α) α
  | [] => (none, [])
  | x :: xs => (some x, xs)

/-- Trace of `k` successive `next` calls: the list of the `k` produced
`Option` results together with the state after the `k`-th call. -/
def nextk {σ α : Type u} (pnext : NextFn σ α) : Nat → σ → List (Option α) × σ
  | 0, s => ([], s)
  | k + 1, s =>
    let r := pnext s
    let rest := nextk pnext k r.2
    (r.1 :: rest.1, rest.2)

/-- Length of the run of present values at the front of a trace: the
number of `next` calls that succeeded before the first `OpNone`. -/
def sCount {α : Type u} : List (Option α) → Nat
  | some _ :: t => sCount t + 1
  | _ => 0

/-- The values of the run of present values at the front of a trace. -/
def sVals {α : Type u} : List (Option α) → List α
  | some x :: t => x :: sVals t
  | _ => []

/-- Collector: repeatedly call `next`, gathering produced values until the
first `OpNone` (or until the fuel runs out), and return the collected
values together with the state after the stopping call.  This mirrors
driving an iterator with `collect_list`. -/
def collectIter {σ α : Type u} (pnext : NextFn σ α) : Nat → σ → List α × σ
  | 0, s => ([], s)
  | f + 1, s =>
    match pnext s with
    | (none, s2) => ([], s2)
    | (some x, s2) =>
      let r := collectIter pnext f s2
      (x :: r.1, r.2)

/-! ## Comparison utilities (`src/monad_std/utils/cmp.py`) and max/min -/

/-- Embedding of `Ordering` from `src/monad_std/utils/cmp.py`
(`Greater = 0`, `Equal = 1`, `Less = 2`). -/
inductive Ordering where
  | Greater
  | Equal
  | Less
deriving DecidableEq, Repr

/-- `Ordering.is_ge` from the source: true when the ordering represents
greater than or equal, i.e. the ordering differs from `Less`. -/
def Ordering.is_ge (o : Ordering) : Bool := o ≠ Ordering.Less

/-- `Ordering.is_le` from the source: true when the ordering represents
less than or equal, i.e. the ordering differs from `Greater`. -/
def Ordering.is_le (o : Ordering) : Bool := o ≠ Ordering.Greater

/-- `Ordering.parse` from the source, restricted to the branch the max/min
family exercises: when the argument is already an `Ordering` instance it
is returned unchanged (`compare` always returns an `Ordering`). -/
def Ordering.parse (o : Ordering) : Ordering := o

/-- The test helper `Element` (`src/tests/testutil/element.py`): compares
by `value` only, while `id` distinguishes equally-comparing elements. -/
structure Element where
  value : Int
  id : Int
deriving DecidableEq, Repr

/-- `compare` from `src/monad_std/utils/cmp.py` instantiated at `Element`:
`Greater` when `a > b`, `Less` when `a < b`, else `Equal`, where the
rich comparisons of `Element` compare the `value` fields. -/
def compareElement (a b : Element) : Ordering :=
  if a.value > b.value then Ordering.Greater
  else if a.value < b.value then Ordering.Less
  else Ordering.Equal

/-- `max_by` from `src/monad_std/utils/cmp.py`: parse the ordering
produced by the comparison function and return `a` when it is greater or
equal, otherwise `b`. -/
def max_by {α : Type u} (a b : α) (fn : α → α → Ordering) : α :=
  if (Ordering.parse (fn a b)).is_ge then a else b

/-- `min_by` from `src/monad_std/utils/cmp.py`: parse the ordering
produced by the comparison function and return `a` when it is less or
equal, otherwise `b`. -/
def min_by {α : Type u} (a b : α) (fn : α → α → Ordering) : α :=
  if (Ordering.parse (fn a b)).is_le then a else b

/-- `IterMeta.reduce` (`src/monad_std/iter/iter.py` line 1301):
`self.next().map(lambda first: self.fold(first, func))`, where `fold` is
the strict left fold over the remaining elements; spelled out for the
list-backed source iterator. -/
def reduce {α : Type u} (f : α → α → α) : List α → Option α
  | [] => none
  | x :: xs => some (xs.foldl f x)

/-- `IterMeta.max` (`src/monad_std/iter/iter.py` line 1443):
`self.reduce(lambda a, b: mutils.cmp.max_by(a, b, mutils.cmp.compare))`,
instantiated at `Element` elements. -/
def iterMax (l : List Element) : Option Element :=
  reduce (fun a b => max_by a b compareElement) l

/-- `IterMeta.min` (`src/monad_std/iter/iter.py` line 1531):
`self.reduce(lambda a, b: mutils.cmp.min_by(a, b, mutils.cmp.compare))`,
instantiated at `Element` elements. -/
def iterMin (l : List Element) : Option Element :=
  reduce (fun a b => min_by a b compareElement) l

/-! ## Fuse (`src/monad_std/iter/impl/fuse.py`) -/

/-- `Fuse.next`: the state is the `Option`-held parent (`self.__it`).
`self.__it.and_then(lambda x: x.next()).or_else(lambda: self.__finish())`:
with a present parent, poll it and keep it when it produced a value;
when the parent produced `OpNone`, or the parent is already absent,
`__finish` replaces the held parent by `Option.none()` and returns
`Option.none()`. -/
def fuseNext {σ α : Type u} (pnext : NextFn σ α) : NextFn (Option σ) α
  | none => (none, none)
  | some s =>
    match pnext s with
    | (some v, s2) => (some v, some s2)
    | (none, _) => (none, none)

/-- An oscillating hand-built source on state `Nat`: present on even
counter values, empty on odd ones, always incrementing the counter.  It
resumes producing values after an `OpNone`. -/
def oscNext : NextFn Nat Nat :=
  fun n => (if n % 2 = 0 then some n else none, n + 1)

/-! ## Zip (`src/monad_std/iter/impl/zip.py`) -/

/-- `Zip.next`: `self.__it1.next().zip(self.__it2.next())`.  Python
evaluates the receiver `self.__it1.next()` and then the argument
`self.__it2.next()` unconditionally, before `zip` combines the two
results, so both parents are advanced on every call. -/
def zipNext {σ₁ σ₂ α β : Type u} (n1 : NextFn σ₁ α) (n2 : NextFn σ₂ β) :
    NextFn (σ₁ × σ₂) (α × β) :=
  fun s =>
    let r1 := n1 s.1
    let r2 := n2 s.2
    (optZip r1.1 r2.1, (r1.2, r2.2))

/-! ## advance_by and next_chunk (`src/monad_std/iter/iter.py`) -/

/-- `IterMeta.advance_by` (`iter.py` lines 138-141):
`for i in range(n): if self.next().is_none(): return Err(n - i)`, then
`return Ok(None)`.  In the recursion the first argument is the number of
loop iterations still to run, so the failing iteration `i` of the Python
loop returns `Err` of the remaining count. -/
def advanceBy {σ α : Type u} (pnext : NextFn σ α) : Nat → σ → Result Unit Nat × σ
  | 0, s => (.ok (), s)
  | n + 1, s =>
    match pnext s with
    | (none, s2) => (.err (n + 1), s2)
    | (some _, s2) => advanceBy pnext n s2

/-- The loop body of `IterMeta.next_chunk` (`iter.py` lines 191-197):
`for _ in range(n)` pull the parent, appending produced values to `ckl`,
returning `Err(ckl)` at the first `OpNone` and `Ok(ckl)` when every pull
produced a value. -/
def nextChunkLoop {σ α : Type u} (pnext : NextFn σ α) :
    Nat → List α → σ → Result (List α) (List α) × σ
  | 0, ckl, s => (.ok ckl, s)
  | k + 1, ckl, s =>
    match pnext s with
    | (some x, s2) => nextChunkLoop pnext k (ckl ++ [x]) s2
    | (none, s2) => (.err ckl, s2)

/-- `IterMeta.next_chunk` (`iter.py` lines 190-197): the guard
`assert n > 0` raises `AssertionError` for non-positive `n`; otherwise
the collection loop runs `n` times starting from the empty list. -/
def nextChunk {σ α : Type u} (pnext : NextFn σ α) (n : Int) (s : σ) :
    PyRes (Result (List α) (List α) × σ) :=
  if n ≤ 0 then .exn .assertionError
  else .ok (nextChunkLoop pnext n.toNat [] s)

/-! ## TakeWhile (`src/monad_std/iter/impl/take.py`) -/

/-- `TakeWhile.next` (`take.py` lines 43-47) with `__while_check` inlined:
when the sticky flag `self.__flag` is set, return `OpNone` without
touching the parent; otherwise pull the parent and, on a produced value,
either pass it through (predicate holds) or set the flag and return
`OpNone` (predicate fails, the element is consumed and discarded).  The
state is the pair of the parent state and the flag. -/
def takeWhileNext {σ α : Type u} (pnext : NextFn σ α) (f : α → Bool) :
    NextFn (σ × Bool) α :=
  fun st =>
    if st.2 then (none, st)
    else
      match pnext st.1 with
      | (none, s2) => (none, (s2, false))
      | (some x, s2) =>
        if f x then (some x, (s2, false)) else (none, (s2, true))

/-! ## Peekable and Intersperse
(`src/monad_std/iter/impl/peekable.py`, `intersperse.py`) -/

/-- `Peekable.next` (`peekable.py` lines 17-20): the state adds the
one-slot lookahead cache `self.__peek : Option[Option[T]]`.  A cached
result is returned and the cache cleared; otherwise the parent is
advanced directly. -/
def peekableNext {σ α : Type u} (pnext : NextFn σ α) :
    NextFn (σ × Option (Option α)) α :=
  fun st =>
    match st.2 with
    | some pk => (pk, (st.1, none))
    | none =>
      let r := pnext st.1
      (r.1, (r.2, none))

/-- `Peekable.peek` (`peekable.py` lines 27-47): return the cached result
when present; otherwise advance the parent once and cache the result
(`__peek_next`). -/
def peekablePeek {σ α : Type u} (pnext : NextFn σ α)
    (st : σ × Option (Option α)) : Option α × (σ × Option (Option α)) :=
  match st.2 with
  | some pk => (pk, st)
  | none =>
    let r := pnext st.1
    (r.1, (r.2, some r.1))

/-- `Intersperse.next` (`intersperse.py` lines 22-28): the parent is
wrapped in a `Peekable`; the state adds the alternation flag
`self.__need_sep`.  When the flag is set, `peek` is evaluated (Python
short-circuit `and`): a present peek emits the separator and clears the
flag; otherwise the else branch sets the flag and returns
`self.__it.next()` (which consumes the cached peek result).  When the
flag is clear, the else branch runs without peeking. -/
def intersperseNext {σ α : Type u} (pnext : NextFn σ α) (sep : α) :
    NextFn ((σ × Option (Option α)) × Bool) α :=
  fun st =>
    if st.2 then
      let p := peekablePeek pnext st.1
      if p.1.isSome then (some sep, (p.2, false))
      else
        let r := peekableNext pnext p.2
        (r.1, (r.2, true))
    else
      let r := peekableNext pnext st.1
      (r.1, (r.2, true))

/-- Driving an `Intersperse` over a list-backed source to exhaustion:
the construction wraps the fresh parent in a `Peekable` with an empty
cache and a clear alternation flag.  The fuel `2 * l.length + 1` is
enough for every element, every separator, and the final empty call. -/
def intersperseCollect {α : Type u} (l : List α) (sep : α) : List α :=
  (collectIter (intersperseNext listNext sep) (2 * l.length + 1) ((l, none), false)).1

/-- Reference shape used to state the Intersperse theorem: a separator
before each element. -/
def sepEach {α : Type u} (sep : α) : List α → List α
  | [] => []
  | x :: xs => sep :: x :: sepEach sep xs

/-! ## ArrayChunk and Chunk
(`src/monad_std/iter/impl/array_chunk.py`, `chunk.py`) -/

/-- The collection loop of `ArrayChunk.next` (`array_chunk.py` lines
21-26): pull the parent up to `chunk_size` times appending to `arr`.
The first component of the result is `some arr` when the loop ran to
completion (the `for`-`else` branch) and `none` when it hit a `break`
on parent exhaustion; the last component is the array built so far. -/
def acLoop {σ α : Type u} (pnext : NextFn σ α) :
    Nat → σ → List α → Option (List α) × σ × List α
  | 0, s, arr => (some arr, s, arr)
  | k + 1, s, arr =>
    match pnext s with
    | (some x, s2) => acLoop pnext k s2 (arr ++ [x])
    | (none, s2) => (none, s2, arr)

/-- `ArrayChunk.next` (`array_chunk.py` lines 20-31): a completed loop
returns the full chunk and leaves the `__unused` slot untouched; a
broken loop stores the partial chunk in `__unused` and returns `OpNone`.
The state pairs the parent state with the `__unused` slot, whose outer
`Option` records whether the instance attribute has ever been assigned
(`__init__` does not assign it). -/
def arrayChunkNext {σ α : Type u} (pnext : NextFn σ α) (n : Nat) :
    NextFn (σ × Option (Option (List α))) (List α) :=
  fun st =>
    match acLoop pnext n st.1 [] with
    | (some arr, s2, _) => (some arr, (s2, st.2))
    | (none, s2, arr) => (none, (s2, some (some arr)))

/-- `ArrayChunk.get_unused` (`array_chunk.py` lines 33-44): reading
`self.__unused` raises `AttributeError` when the attribute has never
been assigned, and returns the stored `Option` otherwise. -/
def getUnused {σ α : Type u} (st : σ × Option (Option (List α))) :
    PyRes (Option (List α)) :=
  match st.2 with
  | none => .exn .attributeError
  | some u => .ok u

/-- Iterating `ArrayChunk.next` `k` times, keeping only the state. -/
def acIter {σ α : Type u} (pnext : NextFn σ α) (n : Nat) :
    Nat → σ × Option (Option (List α)) → σ × Option (Option (List α))
  | 0, st => st
  | k + 1, st => acIter pnext n k (arrayChunkNext pnext n st).2

/-- `Chunk.next` (`chunk.py` lines 22-31): once the finished flag is set,
return `OpNone`; otherwise pull the wrapped `ArrayChunk`; on its
`OpNone`, read `get_unused`, set the finished flag and return the
stored partial chunk. -/
def chunkNext {σ α : Type u} (pnext : NextFn σ α) (n : Nat)
    (st : (σ × Option (Option (List α))) × Bool) :
    PyRes (Option (List α) × ((σ × Option (Option (List α))) × Bool)) :=
  if st.2 then .ok (none, st)
  else
    let r := arrayChunkNext pnext n st.1
    match r.1 with
    | none =>
      match getUnused r.2 with
      | .exn e => .exn e
      | .ok u => .ok (u, (r.2, true))
    | some c => .ok (some c, (r.2, false))

/-- Results of `k` successive `Chunk.next` calls; a raised exception ends
the run. -/
def chunkRun {σ α : Type u} (pnext : NextFn σ α) (n : Nat) :
    Nat → (σ × Option (Option (List α))) × Bool → List (PyRes (Option (List α)))
  | 0, _ => []
  | k + 1, st =>
    match chunkNext pnext n st with
    | .exn e => [.exn e]
    | .ok (r, st2) => .ok r :: chunkRun pnext n k st2

/-- The first `m` chunks of size `n` of a list, used to state the Chunk
theorem. -/
def chunksN {α : Type u} (n : Nat) : Nat → List α → List (List α)
  | 0, _ => []
  | m + 1, l => l.take n :: chunksN n m (l.drop n)

/-! ## PartitionBy and PartitionGroup (`src/monad_std/iter/impl/partition.py`)

The parent iterator is instantiated with the list-backed source, which
makes the `while True` loop of `__next_left` / `__next_right` a
terminating recursion on the remaining list.  Attribute deletion
(`del self.__it`; `del self.__parent, self.__parent_next, self.__buffer`)
is modelled by `Option`-valued fields whose `none` value means the
attributes are gone; the child fields `__parent`, `__parent_next` and
`__buffer` are deleted together, so one `Option` stands for all three. -/

/-- The shared mutable state of a `PartitionBy` parent and its two
`PartitionGroup` children. -/
structure PartState (α L R : Type u) where
  pbIt : Option (List α)
  pbEnd : Bool
  buf1 : Option (List L)
  end1 : Bool
  buf2 : Option (List R)
  end2 : Bool
deriving DecidableEq, Repr

/-- `PartitionBy.__next` (`partition.py` lines 37-46): once `__end` is
set, return `OpNone`; otherwise pull `self.__it` (raising
`AttributeError` if it was deleted); on exhaustion set `__end`, delete
`__it` and return `OpNone`; otherwise map the splitter over the value. -/
def pbNext {α L R : Type u} (split : α → Either L R) (st : PartState α L R) :
    PyRes (Option (Either L R) × PartState α L R) :=
  if st.pbEnd then .ok (none, st)
  else
    match st.pbIt with
    | none => .exn .attributeError
    | some [] => .ok (none, { st with pbEnd := true, pbIt := none })
    | some (x :: xs) => .ok (some (split x), { st with pbIt := some xs })

/-- `PartitionBy.__next_left` (`partition.py` lines 48-59), the
`while True` loop with `__next` unfolded so the recursion is on the
remaining list: a `Left` value is returned, a `Right` value is pushed
into child 2's buffer (raising `AttributeError` when that deque was
deleted) and the loop continues; parent exhaustion returns `OpNone`
(the `del self.__child_1` there only drops a reference). -/
def nextLeftGo {α L R : Type u} (split : α → Either L R) :
    List α → Option (List R) → PyRes (Option L × Option (List α) × Bool × Option (List R))
  | [], b2 => .ok (none, none, true, b2)
  | x :: xs, b2 =>
    match split x with
    | .left v => .ok (some v, some xs, false, b2)
    | .right v =>
      match b2 with
      | none => .exn .attributeError
      | some b => nextLeftGo split xs (some (b ++ [v]))

/-- Entry of `PartitionBy.__next_left`: the first `__next` call returns
early when `__end` is already set or `__it` was deleted; otherwise the
loop `nextLeftGo` runs on the remaining list and its outcome is folded
back into the state record. -/
def nextLeft {α L R : Type u} (split : α → Either L R) (st : PartState α L R) :
    PyRes (Option L × PartState α L R) :=
  if st.pbEnd then .ok (none, st)
  else
    match st.pbIt with
    | none => .exn .attributeError
    | some l =>
      match nextLeftGo split l st.buf2 with
      | .exn e => .exn e
      | .ok (r, it2, e2, b2) => .ok (r, { st with pbIt := it2, pbEnd := e2, buf2 := b2 })

/-- `PartitionBy.__next_right` (`partition.py` lines 61-72), symmetric to
`nextLeft`: a `Right` value is returned, a `Left` value is pushed into
child 1's buffer and the loop continues. -/
def nextRightGo {α L R : Type u} (split : α → Either L R) :
    List α → Option (List L) → PyRes (Option R × Option (List α) × Bool × Option (List L))
  | [], b1 => .ok (none, none, true, b1)
  | x :: xs, b1 =>
    match split x with
    | .right v => .ok (some v, some xs, false, b1)
    | .left v =>
      match b1 with
      | none => .exn .attributeError
      | some b => nextRightGo split xs (some (b ++ [v]))

/-- Entry of `PartitionBy.__next_right`, symmetric to `nextLeft`. -/
def nextRight {α L R : Type u} (split : α → Either L R) (st : PartState α L R) :
    PyRes (Option R × PartState α L R) :=
  if st.pbEnd then .ok (none, st)
  else
    match st.pbIt with
    | none => .exn .attributeError
    | some l =>
      match nextRightGo split l st.buf1 with
      | .exn e => .exn e
      | .ok (r, it2, e2, b1) => .ok (r, { st with pbIt := it2, pbEnd := e2, buf1 := b1 })

/-- Lines 90-98 of `PartitionGroup.next` for the left child: read the
buffer length (raising `AttributeError` after deletion); with an empty
buffer call the parent-next closure and, on `OpNone`, set `__end`,
delete `__parent`, `__parent_next` and `__buffer` and return `OpNone`;
with a non-empty buffer pop its front. -/
def group1Rest {α L R : Type u} (split : α → Either L R) (st : PartState α L R) :
    PyRes (Option L × PartState α L R) :=
  match st.buf1 with
  | none => .exn .attributeError
  | some [] =>
    match nextLeft split st with
    | .exn e => .exn e
    | .ok (none, st2) => .ok (none, { st2 with end1 := true, buf1 := none })
    | .ok (some v, st2) => .ok (some v, st2)
  | some (x :: xs) => .ok (some x, { st with buf1 := some xs })

/-- `PartitionGroup.next` (`partition.py` lines 87-98) for the left
child: line 88 evaluates `self.__end and self.__buffer` with Python
short-circuiting, so the deleted `__buffer` attribute is only read (and
`AttributeError` raised) when `__end` is already set; a set flag with a
non-empty buffer returns `OpNone`, every other case falls through to
the remaining lines. -/
def group1Next {α L R : Type u} (split : α → Either L R) (st : PartState α L R) :
    PyRes (Option L × PartState α L R) :=
  if st.end1 then
    match st.buf1 with
    | none => .exn .attributeError
    | some b => if b.isEmpty then group1Rest split st else .ok (none, st)
  else group1Rest split st

/-- Lines 90-98 of `PartitionGroup.next` for the right child, symmetric
to `group1Rest`. -/
def group2Rest {α L R : Type u} (split : α → Either L R) (st : PartState α L R) :
    PyRes (Option R × PartState α L R) :=
  match st.buf2 with
  | none => .exn .attributeError
  | some [] =>
    match nextRight split st with
    | .exn e => .exn e
    | .ok (none, st2) => .ok (none, { st2 with end2 := true, buf2 := none })
    | .ok (some v, st2) => .ok (some v, st2)
  | some (x :: xs) => .ok (some x, { st with buf2 := some xs })

/-- `PartitionGroup.next` (`partition.py` lines 87-98) for the right
child, symmetric to `group1Next`. -/
def group2Next {α L R : Type u} (split : α → Either L R) (st : PartState α L R) :
    PyRes (Option R × PartState α L R) :=
  if st.end2 then
    match st.buf2 with
    | none => .exn .attributeError
    | some b => if b.isEmpty then group2Rest split st else .ok (none, st)
  else group2Rest split st

/-- The state of a freshly constructed `PartitionBy` over a list source:
both children start with fresh empty deques and clear end flags
(`partition.py` lines 21-27, 81-85). -/
def partInit {α L R : Type u} (l : List α) : PartState α L R :=
  { pbIt := some l, pbEnd := false
    buf1 := some [], end1 := false
    buf2 := some [], end2 := false }

/-! ## Theorems -/

/-- Claim C1, evaluated at the spec's own tie-break example: on
`[Element(3, id=1), Element(3, id=3)]` the implemented `max` returns the
first equally-maximum element (`id = 1`), not the last (`id = 3`) that
the claim, the method docstrings and the repository test `test_max_min`
require; `min` ties break the same way, and the repository's own test
list for `max` also yields the first maximum (`id = 1`, the test asserts
`id = 3`).  The cause: `reduce` folds with the accumulator as `a`, and
`max_by`/`min_by` return `a` whenever the ordering `is_ge`/`is_le`,
which includes `Equal`. -/
theorem C1_max_min_tie_returns_first :
    iterMax [⟨3, 1⟩, ⟨3, 3⟩] = some ⟨3, 1⟩ ∧
    iterMin [⟨3, 1⟩, ⟨3, 3⟩] = some ⟨3, 1⟩ ∧
    iterMax [⟨0, 0⟩, ⟨3, 1⟩, ⟨2, 2⟩, ⟨3, 3⟩] = some ⟨3, 1⟩ := by
  decide

/-- Claim C2, evaluated at a failing input: `Zip.next` computes
`self.__it1.next().zip(self.__it2.next())` and Python evaluates the
argument `self.__it2.next()` unconditionally, so when the first parent
is exhausted the call still advances the second parent: zipping an empty
first iterator with `[2, 4, 6]` returns Empty while the second parent
has moved from `[2, 4, 6]` to `[4, 6]`, contradicting the claimed
short-circuit (and the `zip` docstring, which promises the second
iterator is only advanced when the first yielded an item).  The
value-level behavior (pair only when both sides are present) is also
recorded. -/
theorem C2_zip_advances_second_parent :
    zipNext listNext listNext (([] : List Nat), [2, 4, 6]) = (none, ([], [4, 6])) ∧
    zipNext listNext listNext (([1] : List Nat), [2, 4, 6]) = (some (1, 2), ([], [4, 6])) := by
  decide

/-- Claim C3: once a Fuse-wrapped iterator's `next` has returned Empty,
the parent is dropped (the held `Option` becomes `OpNone`), every later
call returns Empty with an unchanged state forever, and the result of a
post-exhaustion call does not depend on the parent step function at all
— the parent is never polled again.  This holds for every parent,
including one that would resume producing values after an Empty. -/
theorem C3_fuse_sticky {σ α : Type u} (pnext : NextFn σ α) (st : Option σ)
    (h : (fuseNext pnext st).1 = none) :
    (fuseNext pnext st).2 = none ∧
    (∀ {τ β : Type v} (q : NextFn τ β), fuseNext q none = (none, none)) ∧
    (∀ k, nextk (fuseNext pnext) k (fuseNext pnext st).2 = (List.replicate k none, none)) := by
  have h2 : (fuseNext pnext st).2 = none := by
    cases st with
    | none => rfl
    | some s =>
      rcases hp : pnext s with ⟨r, s2⟩
      cases r with
      | none => simp [fuseNext, hp]
      | some v => simp [fuseNext, hp] at h
  refine ⟨h2, fun q => rfl, ?_⟩
  intro k
  rw [h2]
  induction k with
  | zero => simp [nextk]
  | succ k ih => simp [nextk, fuseNext, ih, List.replicate_succ]

/-- Witness for C3 at the oscillating source (Present on even counter
values, Empty on odd): fusing from counter 1 returns Empty, drops the
parent, and three further calls all return Empty. -/
theorem C3_fuse_sticky_witness :
    (fuseNext oscNext (some 1)).2 = none ∧
    fuseNext oscNext (none : Option Nat) = (none, none) ∧
    nextk (fuseNext oscNext) 3 (fuseNext oscNext (some 1)).2 = ([none, none, none], none) := by
  have h := C3_fuse_sticky oscNext (some 1) (by decide)
  exact ⟨h.1, h.2.1 oscNext, (h.2.2 3).trans (by decide)⟩

/-- Claim C4: when the parent produces an element failing the predicate,
`TakeWhile.next` consumes it (the parent state advances past it), returns
Empty and latches the sticky flag; from any latched state every later
call returns Empty with a completely unchanged state (the parent is not
polled), for arbitrarily many calls.  On the spec's concrete example,
collecting `TakeWhile([1,2,3,4], x != 3)` yields `[1, 2]` with the
underlying iterator left at `[4]`, and draining that underlying iterator
yields `[4]`: the failing element 3 is consumed but never re-emitted. -/
theorem C4_take_while_latch {σ α : Type u} (pnext : NextFn σ α) (f : α → Bool)
    (s s2 : σ) (x : α) (h1 : pnext s = (some x, s2)) (h2 : f x = false) :
    takeWhileNext pnext f (s, false) = (none, (s2, true)) ∧
    (∀ (st : σ × Bool), st.2 = true →
      ∀ k, nextk (takeWhileNext pnext f) k st = (List.replicate k none, st)) ∧
    collectIter (takeWhileNext listNext (fun v => v != 3)) 5 (([1, 2, 3, 4] : List Nat), false)
      = ([1, 2], ([4], true)) ∧
    collectIter listNext 5 ([4] : List Nat) = ([4], []) := by
  refine ⟨?_, ?_, by decide, by decide⟩
  · simp [takeWhileNext, h1, h2]
  · rintro ⟨ss, b⟩ hst k
    cases b with
    | false => simp at hst
    | true =>
      induction k with
      | zero => simp [nextk]
      | succ k ih => simp [nextk, takeWhileNext, ih, List.replicate_succ]

/-- Witness for C4: the parent `[3]` produces 3, which fails the
predicate; the call consumes it and latches. -/
theorem C4_take_while_latch_witness :
    takeWhileNext listNext (fun v => v != 3) (([3] : List Nat), false) = (none, ([], true)) :=
  (C4_take_while_latch listNext (fun v => v != 3) [3] [] 3 (by decide) (by decide)).1

/-- Claim C5: with `j` the number of leading successful calls in the
`n`-call trace of the iterator, `advance_by(n)` returns `Ok` exactly
when all `n` calls yield an element (leaving the iterator after `n`
`next` calls); otherwise it returns `Err(n - j)` after `j + 1` calls
(at most `n` calls in every case), with `0 < n - j ≤ n` and `n - j = n`
exactly when the very first call found the iterator empty; and
`advance_by(0)` always returns `Ok` without touching the iterator. -/
theorem C5_advance_by {σ α : Type u} (pnext : NextFn σ α) (n : Nat) (s : σ) (j : Nat)
    (hj : j = sCount (nextk pnext n s).1) :
    (j = n → advanceBy pnext n s = (.ok (), (nextk pnext n s).2)) ∧
    (j < n →
       advanceBy pnext n s = (.err (n - j), (nextk pnext (j + 1) s).2) ∧
       0 < n - j ∧ n - j ≤ n ∧ (n - j = n ↔ j = 0)) ∧
    (n = 0 → advanceBy pnext n s = (.ok (), s)) := by
  induction n generalizing s j with
  | zero =>
    refine ⟨fun _ => rfl, fun hlt => absurd hlt (by omega), fun _ => rfl⟩
  | succ n ih =>
    rcases hp : pnext s with ⟨r, s2⟩
    cases r with
    | none =>
      have hj0 : j = 0 := by simp [hj, nextk, hp, sCount]
      subst hj0
      refine ⟨fun h => absurd h (by omega), fun _ => ⟨?_, by omega, by omega, by simp⟩,
        fun h => absurd h (by omega)⟩
      simp [advanceBy, hp, nextk]
    | some v =>
      have hj' : j = sCount (nextk pnext n s2).1 + 1 := by simp [hj, nextk, hp, sCount]
      have ihm := ih s2 (sCount (nextk pnext n s2).1) rfl
      have hadv : advanceBy pnext (n + 1) s = advanceBy pnext n s2 := by
        simp [advanceBy, hp]
      refine ⟨?_, ?_, fun h => absurd h (by omega)⟩
      · intro h
        have he : sCount (nextk pnext n s2).1 = n := by omega
        rw [hadv, ihm.1 he]
        simp [nextk, hp]
      · intro h
        have hlt : sCount (nextk pnext n s2).1 < n := by omega
        obtain ⟨he, hpos, hle, _⟩ := ihm.2.1 hlt
        have harith : n - sCount (nextk pnext n s2).1 = n + 1 - j := by omega
        refine ⟨?_, by omega, by omega, ?_⟩
        · rw [hadv, he, harith, hj']
          simp [nextk, hp]
        · constructor
          · intro hh
            omega
          · intro hh
            omega

/-- Witness for C5 on the iterator over `[1, 2]` advanced by 4: two
elements are consumed, then the third call fails, giving `Err(2)` with
the iterator drained. -/
theorem C5_advance_by_witness :
    advanceBy listNext 4 ([1, 2] : List Nat) = (.err 2, []) := by
  have h := (C5_advance_by listNext 4 [1, 2] 2 (by decide)).2.1 (by decide)
  exact h.1.trans (by decide)

/-- The collected front values of a trace are as many as the successful
calls. -/
theorem sVals_length {α : Type u} (t : List (Option α)) : (sVals t).length = sCount t := by
  induction t with
  | nil => rfl
  | cons o t ih =>
    cases o with
    | none => rfl
    | some x => simp [sVals, sCount, ih]

/-- Behavior of the `next_chunk` collection loop against the call trace:
with all `m` pulls successful the loop returns `Ok` of the accumulator
extended by the produced values; otherwise it returns `Err` of the
accumulator extended by the values before the first failure, stopping
after that failing call. -/
theorem nextChunkLoop_spec {σ α : Type u} (pnext : NextFn σ α) :
    ∀ (m : Nat) (s : σ) (ckl : List α),
      (sCount (nextk pnext m s).1 = m →
        nextChunkLoop pnext m ckl s =
          (.ok (ckl ++ sVals (nextk pnext m s).1), (nextk pnext m s).2)) ∧
      (sCount (nextk pnext m s).1 < m →
        nextChunkLoop pnext m ckl s =
          (.err (ckl ++ sVals (nextk pnext m s).1),
           (nextk pnext (sCount (nextk pnext m s).1 + 1) s).2)) := by
  intro m
  induction m with
  | zero =>
    intro s ckl
    exact ⟨fun _ => by simp [nextChunkLoop, nextk, sVals], fun hlt => absurd hlt (by omega)⟩
  | succ m ih =>
    intro s ckl
    rcases hp : pnext s with ⟨r, s2⟩
    cases r with
    | none =>
      constructor
      · intro h
        simp [nextk, hp, sCount] at h
      · intro _
        simp [nextChunkLoop, nextk, hp, sCount, sVals]
    | some v =>
      have ihm := ih s2 (ckl ++ [v])
      constructor
      · intro h
        have h2 : sCount (nextk pnext m s2).1 = m := by
          simp [nextk, hp, sCount] at h
          omega
        rw [show nextChunkLoop pnext (m + 1) ckl s = nextChunkLoop pnext m (ckl ++ [v]) s2 from
          by simp [nextChunkLoop, hp], ihm.1 h2]
        simp [nextk, hp, sVals]
      · intro h
        have h2 : sCount (nextk pnext m s2).1 < m := by
          simp [nextk, hp, sCount] at h
          omega
        rw [show nextChunkLoop pnext (m + 1) ckl s = nextChunkLoop pnext m (ckl ++ [v]) s2 from
          by simp [nextChunkLoop, hp], ihm.2 h2]
        simp [nextk, hp, sVals, sCount]

/-- Claim C6: for `n > 0`, `next_chunk(n)` eagerly pulls up to `n`
elements; when all `n` pulls succeed it returns (without raising) the
success value `Ok` carrying exactly `n` elements, and when only `j < n`
elements are available it returns (again without raising) the failure
value `Err` carrying the `j` collected elements; non-positive `n` is a
fatal precondition violation (`AssertionError` from `assert n > 0`). -/
theorem C6_next_chunk {σ α : Type u} (pnext : NextFn σ α) (n : Int) (s : σ) (j : Nat)
    (hj : j = sCount (nextk pnext n.toNat s).1) :
    (n ≤ 0 → nextChunk pnext n s = .exn .assertionError) ∧
    (0 < n → j = n.toNat →
       nextChunk pnext n s =
         .ok (.ok (sVals (nextk pnext n.toNat s).1), (nextk pnext n.toNat s).2) ∧
       (sVals (nextk pnext n.toNat s).1).length = n.toNat) ∧
    (0 < n → j < n.toNat →
       nextChunk pnext n s =
         .ok (.err (sVals (nextk pnext n.toNat s).1), (nextk pnext (j + 1) s).2) ∧
       (sVals (nextk pnext n.toNat s).1).length = j) := by
  refine ⟨fun h => by simp [nextChunk, h], ?_, ?_⟩
  · intro hpos he
    have hne : ¬ n ≤ 0 := by omega
    have hloop := (nextChunkLoop_spec pnext n.toNat s []).1 (by omega)
    simp only [List.nil_append] at hloop
    refine ⟨?_, by rw [sVals_length]; omega⟩
    simp [nextChunk, hne, hloop]
  · intro hpos hlt
    have hne : ¬ n ≤ 0 := by omega
    have hloop := (nextChunkLoop_spec pnext n.toNat s []).2 (by omega)
    simp only [List.nil_append] at hloop
    rw [← hj] at hloop
    refine ⟨?_, by rw [sVals_length]; omega⟩
    simp [nextChunk, hne, hloop]

/-- Witness for C6: `next_chunk(2)` on `[1, 2, 3]` returns `Ok [1, 2]`;
on the short source `[1]` it returns `Err [1]` without raising; and
`next_chunk(0)` raises `AssertionError`. -/
theorem C6_next_chunk_witness :
    nextChunk listNext 2 ([1, 2, 3] : List Nat) = .ok (.ok [1, 2], [3]) ∧
    nextChunk listNext 2 ([1] : List Nat) = .ok (.err [1], []) ∧
    nextChunk listNext 0 ([1] : List Nat) = .exn .assertionError := by
  refine ⟨?_, ?_, ?_⟩
  · have h := ((C6_next_chunk listNext 2 [1, 2, 3] 2 (by decide)).2.1 (by decide) (by decide)).1
    exact h.trans (by decide)
  · have h := ((C6_next_chunk listNext 2 [1] 1 (by decide)).2.2 (by decide) (by decide)).1
    exact h.trans (by decide)
  · exact (C6_next_chunk listNext 0 ([1] : List Nat) 0 (by decide)).1 (by decide)

/-- From the state "an element was just emitted" (clear peek cache,
alternation flag set), the Intersperse machine over a list source emits
a separator before each remaining element and stops cleanly: no
trailing separator. -/
theorem intersperse_aux {α : Type u} (sep : α) :
    ∀ (l : List α) (fuel : Nat), 2 * l.length + 1 ≤ fuel →
      (collectIter (intersperseNext listNext sep) fuel ((l, none), true)).1 = sepEach sep l := by
  intro l
  induction l with
  | nil =>
    intro fuel hf
    obtain ⟨f, rfl⟩ : ∃ f, fuel = f + 1 := ⟨fuel - 1, by omega⟩
    simp [collectIter, intersperseNext, peekablePeek, peekableNext, listNext, sepEach]
  | cons x xs ih =>
    intro fuel hf
    have hf2 : 2 * xs.length + 3 ≤ fuel := by
      simp only [List.length_cons] at hf
      omega
    obtain ⟨f, rfl⟩ : ∃ f, fuel = f + 2 := ⟨fuel - 2, by omega⟩
    have hx := ih f (by omega)
    simp [collectIter, intersperseNext, peekablePeek, peekableNext, listNext, sepEach, hx]

/-- The separator-before-each shape pasted after a first element is
exactly `List.intersperse`. -/
theorem sepEach_intersperse {α : Type u} (sep x : α) :
    ∀ xs, x :: sepEach sep xs = List.intersperse sep (x :: xs) := by
  intro xs
  induction xs generalizing x with
  | nil => rfl
  | cons y ys ih => rw [sepEach, List.intersperse_cons_cons, ← ih y]

/-- Claim C7: driving Intersperse over any list source collects exactly
`List.intersperse sep l` — the parent's elements in source order with
the separator only between adjacent elements, never leading, never
trailing, and absent for empty and singleton parents; in particular
`Intersperse([0,1,2], 100)` collects to `[0, 100, 1, 100, 2]`. -/
theorem C7_intersperse {α : Type u} (l : List α) (sep : α) :
    intersperseCollect l sep = List.intersperse sep l ∧
    intersperseCollect ([0, 1, 2] : List Nat) 100 = [0, 100, 1, 100, 2] := by
  refine ⟨?_, by decide⟩
  cases l with
  | nil => rfl
  | cons x xs =>
    have hx := intersperse_aux sep xs (2 * xs.length + 2) (by omega)
    have step1 : intersperseCollect (x :: xs) sep
        = x :: (collectIter (intersperseNext listNext sep)
            (2 * xs.length + 2) ((xs, none), true)).1 := rfl
    rw [← sepEach_intersperse, step1, hx]

/-- With at least `n` elements remaining, the ArrayChunk collection loop
completes without a break: it consumes exactly `n` elements and returns
the accumulator extended by them. -/
theorem acLoop_full {α : Type u} :
    ∀ (n : Nat) (l arr : List α), n ≤ l.length →
      acLoop listNext n l arr = (some (arr ++ l.take n), l.drop n, arr ++ l.take n) := by
  intro n
  induction n with
  | zero => intro l arr _; simp [acLoop]
  | succ n ih =>
    intro l arr h
    cases l with
    | nil => simp at h
    | cons y ys =>
      have := ih ys (arr ++ [y]) (by simp at h; omega)
      simp [acLoop, listNext, this]

/-- With at least `n` elements remaining, `ArrayChunk.next` produces the
full chunk of the next `n` elements and leaves the `__unused` slot
untouched. -/
theorem arrayChunkNext_full {α : Type u} (n : Nat) (l : List α)
    (u : Option (Option (List α))) (h : n ≤ l.length) :
    arrayChunkNext listNext n (l, u) = (some (l.take n), (l.drop n, u)) := by
  simp [arrayChunkNext, acLoop_full n l [] h]

/-- On an exhausted parent, `ArrayChunk.next` (with positive chunk size)
breaks immediately, stores the empty partial chunk in `__unused` and
returns Empty. -/
theorem arrayChunkNext_nil {α : Type u} (n : Nat) (hn : 0 < n)
    (u : Option (Option (List α))) :
    arrayChunkNext listNext n (([] : List α), u) = (none, ([], some (some []))) := by
  obtain ⟨k, rfl⟩ : ∃ k, n = k + 1 := ⟨n - 1, by omega⟩
  simp [arrayChunkNext, acLoop, listNext]

/-- A single Chunk call over a parent holding at least `n` elements
produces the full next chunk and recurses on the rest. -/
theorem chunkRun_step_full {α : Type u} (n k : Nat) (l : List α)
    (u : Option (Option (List α))) (h : n ≤ l.length) :
    chunkRun listNext n (k + 1) ((l, u), false) =
      .ok (some (l.take n)) :: chunkRun listNext n k ((l.drop n, u), false) := by
  have hc : chunkNext listNext n ((l, u), false)
      = .ok (some (l.take n), ((l.drop n, u), false)) := by
    simp [chunkNext, arrayChunkNext_full n l u h]
  simp [chunkRun, hc]

/-- Claim C8: over a parent whose length is an exact multiple `m * n` of
the chunk size `n > 0` (including the empty parent, `m = 0`), driving
the Chunk adapter for `m + 2` calls yields the `m` full chunks, then one
Present of the empty list, then Empty — and no call raises. -/
theorem C8_chunk_exact_multiple {α : Type u} (n m : Nat) (l : List α)
    (hn : 0 < n) (hl : l.length = m * n) :
    chunkRun listNext n (m + 2) ((l, none), false) =
      (chunksN n m l).map (fun c => PyRes.ok (some c)) ++ [.ok (some []), .ok none] := by
  induction m generalizing l with
  | zero =>
    have hnil : l = [] := List.length_eq_zero.mp (by simpa using hl)
    subst hnil
    simp [chunkRun, chunkNext, arrayChunkNext_nil n hn, getUnused, chunksN]
  | succ m ih =>
    have hle : n ≤ l.length := by
      rw [hl, Nat.succ_mul]
      omega
    have hdrop : (l.drop n).length = m * n := by
      rw [List.length_drop, hl, Nat.succ_mul]
      omega
    have hrec := ih (l.drop n) hdrop
    calc chunkRun listNext n (m + 1 + 2) ((l, none), false)
        = chunkRun listNext n (m + 2 + 1) ((l, none), false) := rfl
      _ = .ok (some (l.take n)) :: chunkRun listNext n (m + 2) ((l.drop n, none), false) :=
          chunkRun_step_full n (m + 2) l none hle
      _ = (chunksN n (m + 1) l).map (fun c => PyRes.ok (some c)) ++ [.ok (some []), .ok none] := by
          rw [hrec]
          simp [chunksN]

/-- Witness for C8 at `n = 2`, `m = 2`, parent `[1, 2, 3, 4]`: two full
chunks, then `Present([])`, then Empty. -/
theorem C8_chunk_exact_multiple_witness :
    chunkRun listNext 2 4 ((([1, 2, 3, 4] : List Nat), none), false) =
      [.ok (some [1, 2]), .ok (some [3, 4]), .ok (some []), .ok none] := by
  have h := C8_chunk_exact_multiple 2 2 ([1, 2, 3, 4] : List Nat) (by decide) (by decide)
  exact h.trans (by decide)

/-- Claim C9: the `__unused` slot of an `ArrayChunk` is never assigned by
`__init__`, and a `next` call that returns a full chunk does not assign
it either; hence after any number `k` of `next` calls that all returned
full chunks (which is guaranteed while `k * n` does not exceed the
parent's length), `get_unused()` still raises `AttributeError` —
in particular immediately after construction (`k = 0`). -/
theorem C9_get_unused_attribute_error {α : Type u} (n k : Nat) (l : List α)
    (hn : 0 < n) (hk : k * n ≤ l.length) :
    getUnused (acIter listNext n k (l, none)) = .exn .attributeError := by
  induction k generalizing l with
  | zero => rfl
  | succ k ih =>
    have hle : n ≤ l.length := by
      rw [Nat.succ_mul] at hk
      omega
    have hdrop : k * n ≤ (l.drop n).length := by
      rw [List.length_drop]
      rw [Nat.succ_mul] at hk
      omega
    have hrec := ih (l.drop n) hdrop
    simp [acIter, arrayChunkNext_full n l none hle, hrec]

/-- Witness for C9: after one full-chunk `next` call of size 2 over
`[1, 2, 3]`, `get_unused()` raises `AttributeError`. -/
theorem C9_get_unused_attribute_error_witness :
    getUnused (acIter listNext 2 1 (([1, 2, 3] : List Nat), none)) = .exn .attributeError :=
  C9_get_unused_attribute_error 2 1 [1, 2, 3] (by decide) (by decide)

/-- Claim C10: for either PartitionGroup child, once a `next()` call on a
not-yet-ended child returns Empty (which only happens when its buffer is
empty and the shared parent is exhausted), that call has set the child's
end flag and deleted its `__parent`, `__parent_next` and `__buffer`
attributes, so any further `next()` call on that child raises
`AttributeError` (line 88 reads `self.__end`, finds it set, and then
reads the deleted `self.__buffer`) instead of returning Empty. -/
theorem C10_partition_group_raises {α L R : Type u} (split : α → Either L R) :
    (∀ (st st2 : PartState α L R), st.end1 = false →
        group1Next split st = .ok (none, st2) →
        group1Next split st2 = .exn .attributeError) ∧
    (∀ (st st2 : PartState α L R), st.end2 = false →
        group2Next split st = .ok (none, st2) →
        group2Next split st2 = .exn .attributeError) := by
  constructor
  · intro st st2 h1 h2
    rw [group1Next, h1] at h2
    simp only [Bool.false_eq_true, if_false] at h2
    rw [group1Rest] at h2
    rcases hb : st.buf1 with _ | ⟨_ | ⟨x, xs⟩⟩ <;> rw [hb] at h2 <;>
      simp only [] at h2
    · exact absurd h2 (by simp)
    · rcases hnl : nextLeft split st with ⟨r, st3⟩ | e <;> rw [hnl] at h2
      · cases r with
        | some v => simp at h2
        | none =>
          simp only [PyRes.ok.injEq, Prod.mk.injEq, true_and] at h2
          subst h2
          rw [group1Next]
          simp
      · simp at h2
    · simp at h2
  · intro st st2 h1 h2
    rw [group2Next, h1] at h2
    simp only [Bool.false_eq_true, if_false] at h2
    rw [group2Rest] at h2
    rcases hb : st.buf2 with _ | ⟨_ | ⟨x, xs⟩⟩ <;> rw [hb] at h2 <;>
      simp only [] at h2
    · exact absurd h2 (by simp)
    · rcases hnl : nextRight split st with ⟨r, st3⟩ | e <;> rw [hnl] at h2
      · cases r with
        | some v => simp at h2
        | none =>
          simp only [PyRes.ok.injEq, Prod.mk.injEq, true_and] at h2
          subst h2
          rw [group2Next]
          simp
      · simp at h2
    · simp at h2

/-- Witness for C10: over the empty parent, the left child's first call
returns Empty and deletes the attributes; the second call raises
`AttributeError`. -/
theorem C10_partition_group_raises_witness :
    group1Next (fun x : Nat => Either.left x)
      ({ pbIt := none, pbEnd := true, buf1 := none, end1 := true,
         buf2 := some [], end2 := false } : PartState Nat Nat Nat) = .exn .attributeError :=
  (C10_partition_group_raises (fun x : Nat => Either.left x)).1
    (partInit ([] : List Nat))
    { pbIt := none, pbEnd := true, buf1 := none, end1 := true,
      buf2 := some [], end2 := false }
    (by decide) (by decide)

end MonadStd

